import Mathlib

/-!
Shallow embedding of the `PluginManager` class of NebulaBrowser
(`plugin-manager` module): discovery (`discoverPlugins`), full load and
activation (`loadAll`), web-request aggregation
(`applyWebRequestHandlers`), preload dedup (`getRendererPreloads`),
persistence (`setEnabled`), and hot reload (`reload` /
`_clearRequireCache`).

JavaScript values that flow through the manager (parsed JSON manifests,
listener results) are modelled by `JVal`; JS truthiness, `typeof`,
property access and sloppy-mode property assignment are modelled
explicitly.  The filesystem, `require`, `require.resolve`,
`fs.existsSync`, `pathToFileURL` and `fs.promises.writeFile` are
abstracted into an `Env` of effect functions; `Option`/`Except` results
stand for thrown exceptions.  A ghost `activationTrace` field records, in
order, the id of each plugin whose activation entry point is invoked, and
`setEnabled` returns the path/value handed to the file write so these
observable effects can be stated.
-/

set_option autoImplicit false

namespace NebulaPlugins

/-- JavaScript values as they appear in parsed manifests and plugin
listener results: `undefined` is JS `undefined` (absent property). -/
inductive JVal where
  | null
  | undefined
  | bool (b : Bool)
  | num (n : Int)
  | str (s : String)
  | arr (xs : List JVal)
  | obj (fields : List (String × JVal))

/-- JS `typeof` on the modelled values (`typeof null` is `"object"`). -/
def jsTypeof : JVal → String
  | .null => "object"
  | .undefined => "undefined"
  | .bool _ => "boolean"
  | .num _ => "number"
  | .str _ => "string"
  | .arr _ => "object"
  | .obj _ => "object"

/-- JS truthiness (`NaN` is not modelled; numbers are integers). -/
def truthy : JVal → Bool
  | .null => false
  | .undefined => false
  | .bool b => b
  | .num n => n != 0
  | .str s => s != ""
  | .arr _ => true
  | .obj _ => true

/-- JS property read `v[k]`: on an object, the field or `undefined`;
on any other non-null value, `undefined`.  (Reads on `null`/`undefined`
throw; call sites that can receive those handle them separately.) -/
def getField (v : JVal) (k : String) : JVal :=
  match v with
  | .obj fs => match fs.lookup k with
    | some x => x
    | none => .undefined
  | _ => .undefined

/-- Assign into an association list: update in place if the key exists,
else append (JS property-order semantics). -/
def setAssoc : List (String × JVal) → String → JVal → List (String × JVal)
  | [], k, x => [(k, x)]
  | (k', v') :: rest, k, x =>
      if k' = k then (k, x) :: rest else (k', v') :: setAssoc rest k x

/-- Sloppy-mode JS property write `v[k] = x`: mutates objects, and is a
silent no-op on primitives (the manager module is non-strict code). -/
def setField (v : JVal) (k : String) (x : JVal) : JVal :=
  match v with
  | .obj fs => .obj (setAssoc fs k x)
  | _ => v

/-- JS `a || b`. -/
def jsOr (a b : JVal) : JVal :=
  if truthy a then a else b

/-- JS strict equality `v === s` against a string literal/argument. -/
def jsStrictEqStr (v : JVal) (s : String) : Bool :=
  match v with
  | .str t => t == s
  | _ => false

/-- JS strict test `v === false`. -/
def jsIsFalse : JVal → Bool
  | .bool false => true
  | _ => false

/-- Model of `path.join a b` for the path shapes the manager builds. -/
def pjoin (a b : String) : String :=
  a ++ "/" ++ b

/-! ## Manifest normalization (`loadAll`, lines 50-59)

`loadAll` mutates the parsed manifest in place:
string → singleton array; array → filtered; `== null` (null or
undefined) → empty array; any other value is left as it stands. -/

/-- The `categories` branch of the in-place normalization in `loadAll`:
`cats.filter(x => typeof x === 'string')` on arrays. -/
def normCategoriesVal : JVal → JVal
  | .str s => .arr [.str s]
  | .arr xs => .arr (xs.filter (fun x => jsTypeof x == "string"))
  | .null => .arr []
  | .undefined => .arr []
  | v => v

/-- The element predicate of the `authors` filter in `loadAll`:
`(typeof x === 'string') || (x && typeof x === 'object' && typeof x.name === 'string')`. -/
def authorKeep (x : JVal) : Bool :=
  jsTypeof x == "string" ||
    (truthy x && jsTypeof x == "object" && jsTypeof (getField x "name") == "string")

/-- The `authors` branch of the in-place normalization in `loadAll`:
elements are kept by `authorKeep` — an object that passes stays an
object, it is not replaced by its `name`. -/
def normAuthorsVal : JVal → JVal
  | .str s => .arr [.str s]
  | .arr xs => .arr (xs.filter authorKeep)
  | .null => .arr []
  | .undefined => .arr []
  | v => v

/-- The `categories` assignment step: only the three branches that
assign write the property back (sloppy-mode no-op on primitives). -/
def normStepCats (m : JVal) : JVal :=
  match getField m "categories" with
  | .str s => setField m "categories" (.arr [.str s])
  | .arr xs => setField m "categories" (.arr (xs.filter (fun x => jsTypeof x == "string")))
  | .null => setField m "categories" (.arr [])
  | .undefined => setField m "categories" (.arr [])
  | _ => m

/-- The `authors` assignment step of `loadAll`'s normalization. -/
def normStepAuthors (m : JVal) : JVal :=
  match getField m "authors" with
  | .str s => setField m "authors" (.arr [.str s])
  | .arr xs => setField m "authors" (.arr (xs.filter authorKeep))
  | .null => setField m "authors" (.arr [])
  | .undefined => setField m "authors" (.arr [])
  | _ => m

/-- Normalize a freshly parsed manifest inside `loadAll`'s `try` block.
Reading `.categories` on `null` (or `undefined`) throws, which the
surrounding `catch { continue }` turns into a skipped candidate —
modelled as `none`. -/
def normalizeManifest (m : JVal) : Option JVal :=
  match m with
  | .null => none
  | .undefined => none
  | _ => some (normStepAuthors (normStepCats m))

/-! ## Records, modules, manager state -/

/-- Outcome of invoking a plugin-contributed listener/callback. -/
inductive LOutcome where
  | ret (v : JVal)
  | throws

/-- A contributed web-request entry `{ filter, listener }`; the listener
behaviour is a function from request details to an outcome. -/
structure WRHandler where
  filter : JVal
  listener : JVal → LOutcome

/-- A recorded renderer-page registration
`{ id, file, fileUrl, pluginId }` (`fileUrl` is `null` when
`pathToFileURL` threw). -/
structure PageReg where
  id : JVal
  file : JVal
  fileUrl : Option String
  pluginId : JVal

/-- Registration calls a plugin's entry point makes against its context
during activation, in program order. -/
inductive RegAction where
  | regWebRequest (filter : JVal) (listener : JVal → LOutcome)
  | contributeMenu (contrib : Nat)
  | registerPage (id : JVal) (html : JVal)

/-- A value returned by a successful `require` of a plugin's `main`:
its truthiness, its activation-entry shape (`typeof mod.activate ===
'function'` / `typeof mod === 'function'`), the registration calls its
entry point performs, and whether the entry point then throws. -/
structure ModVal where
  isTruthy : Bool
  hasActivateFn : Bool
  isCallable : Bool
  actions : List RegAction
  throwsAtEnd : Bool

/-- One plugin record, as built by `loadAll`:
`{ id, dir, manifest, enabled, mod, mainPath }`.  `mod = none` models
the JS `null` it is initialised to. -/
structure PluginRecord where
  id : JVal
  dir : String
  manifest : JVal
  enabled : Bool
  mod : Option ModVal
  mainPath : Option String

/-- The mutable fields of a `PluginManager` instance, plus Node's
`require.cache` (keys only) and the ghost `activationTrace` that records
each invoked activation entry point's plugin id in order. -/
structure MState where
  plugins : List PluginRecord
  rendererPreloads : List String
  rendererPages : List PageReg
  webRequestHandlers : List WRHandler
  contextMenuContribs : List Nat
  requireCache : List String
  activationTrace : List JVal

/-- The state a fresh `PluginManager` starts from (empty cache). -/
def emptyMState : MState :=
  { plugins := []
    rendererPreloads := []
    rendererPages := []
    webRequestHandlers := []
    contextMenuContribs := []
    requireCache := []
    activationTrace := [] }

/-- A directory entry from `fs.readdirSync(root, { withFileTypes: true })`. -/
structure DirEnt where
  name : String
  isDir : Bool

/-- The effectful surroundings of the manager.  `Option`/`Except`
failure values stand for thrown exceptions: `readdir` none =
`readdirSync` threw; `readManifestE` error = read or `JSON.parse`
threw (with the message); `requireMod` none = `require` threw;
`fileExists` none = `existsSync` threw; `resolvePath` none =
`require.resolve` threw; `toFileURL` none = `pathToFileURL` threw;
`writeFile` error = the promise rejected. -/
structure Env where
  appPath : String
  userDataPath : String
  readdir : String → Option (List DirEnt)
  readManifestE : String → Except String JVal
  requireMod : String → Option ModVal
  fileExists : String → Option Bool
  resolvePath : String → Option String
  writeFile : String → JVal → Except String Unit
  toFileURL : JVal → Option String

/-- Source `getPluginDirs()`: the bundled root then the user root. -/
def getPluginDirs (env : Env) : List String :=
  [pjoin env.appPath "plugins", pjoin env.userDataPath "plugins"]

/-- The bundled plugins root. -/
def appPluginsDir (env : Env) : String :=
  pjoin env.appPath "plugins"

/-- The user-writable plugins root. -/
def userPluginsDir (env : Env) : String :=
  pjoin env.userDataPath "plugins"

/-! ## `loadAll` — scan phase (lines 35-86) -/

/-- The `main` handling for one enabled candidate (lines 66-75):
falsy `main` → nothing; string `main` → `require` it, setting `mod` and
`mainPath` on success, leaving both `null` when `require` throws (the
`try` spans only the `require`); a truthy non-string `main` makes the
un-guarded `path.join` throw out of `loadAll` (`none`). -/
def mainOutcome (env : Env) (dir : String) (manifest : JVal) :
    Option (Option ModVal × Option String) :=
  let mainV := getField manifest "main"
  if truthy mainV then
    match mainV with
    | .str s =>
      let mpath := pjoin dir s
      match env.requireMod mpath with
      | some m => some (some m, some mpath)
      | none => some (none, none)
    | _ => none
  else some (none, none)

/-- The `rendererPreload` handling (lines 77-82): falsy → nothing; string →
append the joined path iff `existsSync` returns true (an `existsSync`
throw is swallowed by the inner `try`); truthy non-string → the
un-guarded `path.join` throws out of `loadAll` (`none`). -/
def preloadOutcome (env : Env) (dir : String) (manifest : JVal) :
    Option (Option String) :=
  let v := getField manifest "rendererPreload"
  if truthy v then
    match v with
    | .str s =>
      let rp := pjoin dir s
      match env.fileExists rp with
      | some true => some (some rp)
      | some false => some none
      | none => some none
    | _ => none
  else some none

/-- What one directory entry contributes to the scan: skipped (non-dir,
or manifest read/parse/normalize threw inside the `try`), a crash of the
whole `loadAll` call, or a record plus an optional preload path. -/
inductive EntryRes where
  | skip
  | crash
  | found (r : PluginRecord) (preload : Option String)

/-- Process one directory entry of a root (lines 43-85) down to its
`EntryRes`.  `enabled` is `manifest.enabled !== false`; `id` is
`manifest.id || ent.name`; a disabled candidate gets a record with
`mod`/`mainPath` left `null` and no preload collected. -/
def entryRes (env : Env) (root : String) (ent : DirEnt) : EntryRes :=
  if !ent.isDir then .skip else
  let dir := pjoin root ent.name
  let manifestPath := pjoin dir "plugin.json"
  match (env.readManifestE manifestPath).toOption.bind normalizeManifest with
  | none => .skip
  | some manifest =>
    let enabled := !(jsIsFalse (getField manifest "enabled"))
    let id := jsOr (getField manifest "id") (.str ent.name)
    if enabled then
      match mainOutcome env dir manifest with
      | none => .crash
      | some (mod, mainPath) =>
        match preloadOutcome env dir manifest with
        | none => .crash
        | some pre =>
          .found { id := id, dir := dir, manifest := manifest, enabled := true,
                   mod := mod, mainPath := mainPath } pre
    else
      .found { id := id, dir := dir, manifest := manifest, enabled := false,
               mod := none, mainPath := none } none

/-- Apply one entry's `EntryRes` to the manager state: records are
pushed unconditionally, preload paths when collected. -/
def processEntry (env : Env) (root : String) (st : MState) (ent : DirEnt) :
    Option MState :=
  match entryRes env root ent with
  | .skip => some st
  | .crash => none
  | .found r pre =>
      some { st with plugins := st.plugins ++ [r],
                     rendererPreloads := st.rendererPreloads ++ pre.toList }

/-- The inner `for (const ent of entries)` loop of `loadAll`. -/
def scanEntries (env : Env) (root : String) : MState → List DirEnt → Option MState
  | st, [] => some st
  | st, ent :: rest =>
    match processEntry env root st ent with
    | none => none
    | some st' => scanEntries env root st' rest

/-- One root of the outer loop: a `readdirSync` throw is caught and the
root is skipped (`catch { continue }`). -/
def scanRoot (env : Env) (st : MState) (root : String) : Option MState :=
  match env.readdir root with
  | none => some st
  | some es => scanEntries env root st es

/-- The outer `for (const root of dirs)` loop of `loadAll`. -/
def scanRoots (env : Env) : MState → List String → Option MState
  | st, [] => some st
  | st, root :: rest =>
    match scanRoot env st root with
    | none => none
    | some st' => scanRoots env st' rest

/-! ## `loadAll` — activation phase (lines 88-101) -/

/-- Run the straight-line sequence of registration calls a plugin's
entry point makes.  `registerWebRequest` and `contributeContextMenu`
append to the manager-lifetime aggregator lists.  A `registerRendererPage`
call with truthy `id` and `html` pushes its entry and then throws: the
success path calls `manager.log(...)` and its `catch` handler calls
`manager.error(...)`, and `PluginManager` defines neither method, so a
`TypeError` escapes `registerRendererPage`, aborting the remaining
registration calls of this plugin (the model does not represent
plugin-internal exception handling); a falsy `id` or `html` returns
early and registers nothing. -/
def runActions (env : Env) (pid : JVal) : MState → List RegAction → MState
  | st, [] => st
  | st, a :: rest =>
    match a with
    | .regWebRequest f l =>
        runActions env pid
          { st with webRequestHandlers := st.webRequestHandlers ++ [⟨f, l⟩] } rest
    | .contributeMenu n =>
        runActions env pid
          { st with contextMenuContribs := st.contextMenuContribs ++ [n] } rest
    | .registerPage idv htmlv =>
        if truthy idv && truthy htmlv then
          { st with rendererPages :=
              st.rendererPages ++ [⟨idv, htmlv, env.toFileURL htmlv, pid⟩] }
        else runActions env pid st rest

/-- One iteration of the activation loop: skip unless `p.enabled` and
`p.mod` is truthy; invoke `mod.activate(ctx)` or `mod(ctx)` when one of
those shapes is present (recording the invocation in the ghost trace);
any exception out of the entry point is caught and logged. -/
def activateOne (env : Env) (st : MState) (p : PluginRecord) : MState :=
  match p.mod with
  | none => st
  | some m =>
    if p.enabled && m.isTruthy then
      if m.hasActivateFn || m.isCallable then
        runActions env p.id
          { st with activationTrace := st.activationTrace ++ [p.id] } m.actions
      else st
    else st

/-- The activation `for (const p of this.plugins)` loop. -/
def activateList (env : Env) : MState → List PluginRecord → MState
  | st, [] => st
  | st, p :: rest => activateList env (activateOne env st p) rest

/-- Lines 36-38 of `loadAll`: reset `plugins`, `rendererPreloads` and
`rendererPages` (and the ghost trace, so it describes the new pass). -/
def clearLists (st : MState) : MState :=
  { st with plugins := [], rendererPreloads := [], rendererPages := [],
            activationTrace := [] }

/-- Source `loadAll()`: clear the three rebuilt lists, scan both roots, then
activate over the full record list.  `none` models the un-guarded
`path.join` `TypeError` escaping the call. -/
def loadAll (env : Env) (st : MState) : Option MState :=
  match scanRoots env (clearLists st) (getPluginDirs env) with
  | none => none
  | some st1 => some (activateList env st1 st1.plugins)

/-! ## Derived views of the scan used to state theorems -/

/-- Whether an entry would crash the scan. -/
def isCrash : EntryRes → Bool
  | .crash => true
  | _ => false

/-- The record an entry contributes, if any. -/
def recOf (env : Env) (root : String) (ent : DirEnt) : Option PluginRecord :=
  match entryRes env root ent with
  | .found r _ => some r
  | _ => none

/-- The preload path an entry contributes, if any. -/
def preOf (env : Env) (root : String) (ent : DirEnt) : Option String :=
  match entryRes env root ent with
  | .found _ pre => pre
  | _ => none

/-- All records one root contributes. -/
def rootRecords (env : Env) (root : String) : List PluginRecord :=
  match env.readdir root with
  | none => []
  | some es => es.filterMap (recOf env root)

/-- All preload paths one root contributes. -/
def rootPreloads (env : Env) (root : String) : List String :=
  match env.readdir root with
  | none => []
  | some es => es.filterMap (preOf env root)

/-- Whether scanning one root crashes. -/
def rootCrashes (env : Env) (root : String) : Bool :=
  match env.readdir root with
  | none => false
  | some es => es.any (fun e => isCrash (entryRes env root e))

/-- Whether the activation loop invokes a record's entry point. -/
def invoked (p : PluginRecord) : Bool :=
  p.enabled && (match p.mod with
    | some m => m.isTruthy && (m.hasActivateFn || m.isCallable)
    | none => false)

/-! ## `discoverPlugins` (lines 217-252) -/

/-- The read-only descriptor `discoverPlugins` emits per candidate. -/
structure Descriptor where
  id : JVal
  name : JVal
  version : JVal
  description : JVal
  categories : List JVal
  authors : List JVal
  enabled : Bool
  hasMain : Bool
  hasRendererPreload : Bool
  dir : String

/-- The categories expression of `discoverPlugins`:
`typeof cats === 'string' ? [cats] : Array.isArray(cats) ? cats.filter(x => typeof x === 'string') : []`. -/
def discoverCategories (cats : JVal) : List JVal :=
  match cats with
  | .str s => [.str s]
  | .arr xs => xs.filter (fun x => jsTypeof x == "string")
  | _ => []

/-- The mapper of `discoverPlugins`' authors expression:
`x => (typeof x === 'string' ? x : (x && x.name) || null)`. -/
def discoverAuthorMap (x : JVal) : JVal :=
  if jsTypeof x == "string" then x
  else
    let v := if truthy x then getField x "name" else x
    if truthy v then v else .null

/-- The authors expression of `discoverPlugins`: string → singleton; array →
map each element to itself (string) or `(x && x.name) || null`, then
`filter(Boolean)`; anything else → `[]`. -/
def discoverAuthors (au : JVal) : List JVal :=
  match au with
  | .str s => [.str s]
  | .arr xs => (xs.map discoverAuthorMap).filter truthy
  | _ => []

/-- One candidate of `discoverPlugins`: `none` when the entry is not a
directory, or when the manifest read/parse (or the property reads on a
`null` parse result) throw inside the `try` — the candidate is then
silently omitted. -/
def descriptorOf (env : Env) (root : String) (ent : DirEnt) : Option Descriptor :=
  if !ent.isDir then none else
  let dir := pjoin root ent.name
  let manifestPath := pjoin dir "plugin.json"
  match env.readManifestE manifestPath with
  | .error _ => none
  | .ok m =>
    match m with
    | .null => none
    | .undefined => none
    | _ => some
        { id := jsOr (getField m "id") (.str ent.name)
          name := jsOr (getField m "name") (.str ent.name)
          version := jsOr (getField m "version") (.str "0.0.0")
          description := jsOr (getField m "description") (.str "")
          categories := discoverCategories (getField m "categories")
          authors := discoverAuthors (getField m "authors")
          enabled := !(jsIsFalse (getField m "enabled"))
          hasMain := truthy (getField m "main")
          hasRendererPreload := truthy (getField m "rendererPreload")
          dir := dir }

/-- One root of `discoverPlugins`' outer loop (a `readdirSync` throw
skips the root). -/
def discoverRoot (env : Env) (root : String) : List Descriptor :=
  match env.readdir root with
  | none => []
  | some es => es.filterMap (descriptorOf env root)

/-- Source `discoverPlugins()`: both roots in `getPluginDirs` order, flattened
into one output list; never touches `require`. -/
def discoverPlugins (env : Env) : List Descriptor :=
  ((getPluginDirs env).map (discoverRoot env)).flatten

/-! ## Preload query, web-request application (lines 147-189) -/

/-- Insertion step of a JS `Set`; `getRendererPreloads()` is `Array.from(new Set(this.rendererPreloads))`:
JS `Set` keeps the first occurrence of each element, in insertion order. -/
def jsSetInsert (acc : List String) (x : String) : List String :=
  if x ∈ acc then acc else acc ++ [x]

/-- Model of `Array.from(new Set(xs))`: JS `Set` keeps the first
occurrence of each element, in insertion order. -/
def jsSetFrom (xs : List String) : List String :=
  xs.foldl jsSetInsert []

/-- Source `getRendererPreloads()`. -/
def getRendererPreloads (st : MState) : List String :=
  jsSetFrom st.rendererPreloads

/-- The distinguished "do not cancel" decision `{ cancel: false }`. -/
def cancelFalse : JVal :=
  .obj [("cancel", .bool false)]

/-- The per-request callback `applyWebRequestHandlers` installs around a
contributed listener: an object-typed truthy result is forwarded as the
decision (`res && typeof res === 'object'`); any other result, and any
throw, resolves to `{ cancel: false }`. -/
def webRequestDecision (listener : JVal → LOutcome) (details : JVal) : JVal :=
  match listener details with
  | .ret res => if truthy res && jsTypeof res == "object" then res else cancelFalse
  | .throws => cancelFalse

/-- A hook attached to `ses.webRequest.onBeforeRequest`. -/
structure AttachedHook where
  filter : JVal
  hook : JVal → JVal

/-- Source `applyWebRequestHandlers(ses)`: no session `webRequest` → nothing;
otherwise one hook per contributed entry, in contribution order, with
filter `filter || {}` and the guarded decision callback. -/
def applyWebRequestHandlers (hasWebRequest : Bool) (st : MState) :
    List AttachedHook :=
  if hasWebRequest then
    st.webRequestHandlers.map (fun h =>
      { filter := jsOr h.filter (.obj [])
        hook := fun details => webRequestDecision h.listener details })
  else []

/-! ## `setEnabled` (lines 254-263) -/

/-- Source `setEnabled(id, enabled)`.  Errors (all explicit, none swallowed):
no record with that id → `'Plugin not found: ' + id`; manifest
read/parse throw → `'Manifest read failed: ' + message`; a rejected
write propagates.  On success the manifest is rewritten with
`enabled = !!enabled` and `true` is returned — the `.ok` value also
carries the path and manifest handed to the write, so the effect is
observable. -/
def setEnabled (env : Env) (st : MState) (id : String) (enabled : JVal) :
    Except String (String × JVal × Bool) :=
  match st.plugins.find? (fun x => jsStrictEqStr x.id id) with
  | none => .error ("Plugin not found: " ++ id)
  | some p =>
    let manifestPath := pjoin p.dir "plugin.json"
    match env.readManifestE manifestPath with
    | .error e => .error ("Manifest read failed: " ++ e)
    | .ok manifest =>
      let written := setField manifest "enabled" (.bool (truthy enabled))
      match env.writeFile manifestPath written with
      | .error e => .error e
      | .ok _ => .ok (manifestPath, written, true)

/-! ## `_clearRequireCache` and `reload` (lines 265-282) -/

/-- Source `_clearRequireCache(p)`: resolve the record's `mainPath` and drop
that key from `require.cache`; records without a `mainPath`, and a
throwing `require.resolve`, leave the cache untouched (`try {} catch {}`). -/
def clearRequireCache (env : Env) (st : MState) (p : PluginRecord) : MState :=
  match p.mainPath with
  | none => st
  | some mp =>
    match env.resolvePath mp with
    | none => st
    | some k => { st with requireCache := st.requireCache.filter (fun c => c != k) }

/-- The `for (const p of this.plugins) this._clearRequireCache(p)` loop. -/
def clearAllCaches (env : Env) : MState → List PluginRecord → MState
  | st, [] => st
  | st, p :: rest => clearAllCaches env (clearRequireCache env st p) rest

/-- Source `reload(id)`: a truthy `id` clears only the first tracked record
with that id (if any) before `loadAll`; a falsy or absent `id` clears
every tracked record's cache first.  `loadAll` always follows. -/
def reload (env : Env) (st : MState) (id : Option String) : Option MState :=
  match id with
  | some s =>
    if s != "" then
      let st' :=
        match st.plugins.find? (fun x => jsStrictEqStr x.id s) with
        | some p => clearRequireCache env st p
        | none => st
      loadAll env st'
    else loadAll env (clearAllCaches env st st.plugins)
  | none => loadAll env (clearAllCaches env st st.plugins)

/-! ## Further derived views -/

/-- Every record one `loadAll` pass builds: bundled root first, then the
user root. -/
def allRecords (env : Env) : List PluginRecord :=
  rootRecords env (appPluginsDir env) ++ rootRecords env (userPluginsDir env)

/-- Every preload path one `loadAll` pass collects. -/
def allPreloads (env : Env) : List String :=
  rootPreloads env (appPluginsDir env) ++ rootPreloads env (userPluginsDir env)

/-- Whether a `loadAll` pass crashes on an un-guarded `path.join`. -/
def loadCrashes (env : Env) : Bool :=
  rootCrashes env (appPluginsDir env) || rootCrashes env (userPluginsDir env)

/-- JS object values proper: what `res && typeof res === 'object'`
accepts (arrays and objects; `null` fails the truthiness conjunct, and
no other modelled value has `typeof` `"object"`). -/
def isObjectValue : JVal → Bool
  | .arr _ => true
  | .obj _ => true
  | _ => false

/-! ## Concrete inputs used by counterexamples and witnesses -/

/-- A quiescent environment: both plugin roots fail to list, every other
effect fails or is inert. -/
def envBase : Env :=
  { appPath := "A"
    userDataPath := "U"
    readdir := fun _ => none
    readManifestE := fun _ => .error "missing"
    requireMod := fun _ => none
    fileExists := fun _ => some false
    resolvePath := fun _ => none
    writeFile := fun _ _ => .ok ()
    toFileURL := fun _ => none }

/-- A state carrying one web-request entry and one context-menu
contributor from an earlier pass. -/
def stC1 : MState :=
  { emptyMState with
      webRequestHandlers := [⟨JVal.null, fun _ => .ret .null⟩]
      contextMenuContribs := [7] }

/-- A manifest whose `authors` array holds a single `{name:"X"}` object. -/
def mC2 : JVal :=
  .obj [("authors", .arr [.obj [("name", .str "X")]])]

/-- The result of `loadAll`'s in-place normalization of `mC2`. -/
def mC2norm : JVal :=
  .obj [("authors", .arr [.obj [("name", .str "X")]]), ("categories", .arr [])]

/-- A module that activates successfully through a named `activate`. -/
def modOk : ModVal :=
  { isTruthy := true, hasActivateFn := true, isCallable := false,
    actions := [], throwsAtEnd := false }

/-- A module whose `activate` throws. -/
def modThrows : ModVal :=
  { isTruthy := true, hasActivateFn := true, isCallable := false,
    actions := [], throwsAtEnd := true }

/-- Environment for the failed-`require` scenario: the bundled root
lists plugin directories `a` and `b`, both declaring `main: "m.js"`;
`require` throws for `a` and succeeds for `b`. -/
def envC3 : Env :=
  { envBase with
      readdir := fun r => if r = "A/plugins" then some [⟨"a", true⟩, ⟨"b", true⟩] else none
      readManifestE := fun p =>
        if p = "A/plugins/a/plugin.json" then .ok (.obj [("main", .str "m.js")])
        else if p = "A/plugins/b/plugin.json" then .ok (.obj [("main", .str "m.js")])
        else .error "missing"
      requireMod := fun p => if p = "A/plugins/b/m.js" then some modOk else none }

/-- The state `loadAll` produces in the failed-`require` scenario. -/
def stOutC3 : MState :=
  (loadAll envC3 emptyMState).getD emptyMState

/-- Environment for the throwing-`activate` scenario: plugins `a` and
`b` both load, `a`'s `activate` throws. -/
def envC4 : Env :=
  { envBase with
      readdir := fun r => if r = "A/plugins" then some [⟨"a", true⟩, ⟨"b", true⟩] else none
      readManifestE := fun p =>
        if p = "A/plugins/a/plugin.json" then .ok (.obj [("main", .str "m.js")])
        else if p = "A/plugins/b/plugin.json" then .ok (.obj [("main", .str "m.js")])
        else .error "missing"
      requireMod := fun p =>
        if p = "A/plugins/a/m.js" then some modThrows
        else if p = "A/plugins/b/m.js" then some modOk
        else none }

/-- The state `loadAll` produces in the throwing-`activate` scenario. -/
def stOutC4 : MState :=
  (loadAll envC4 emptyMState).getD emptyMState

/-- Environment with the same manifest id `"x"` in both search roots. -/
def envC5 : Env :=
  { envBase with
      readdir := fun r =>
        if r = "A/plugins" then some [⟨"dup", true⟩]
        else if r = "U/plugins" then some [⟨"dup", true⟩]
        else none
      readManifestE := fun p =>
        if p = "A/plugins/dup/plugin.json" then
          .ok (.obj [("id", .str "x"), ("main", .str "m.js")])
        else if p = "U/plugins/dup/plugin.json" then
          .ok (.obj [("id", .str "x"), ("main", .str "m.js")])
        else .error "missing"
      requireMod := fun p =>
        if p = "A/plugins/dup/m.js" then some modOk
        else if p = "U/plugins/dup/m.js" then some modOk
        else none }

/-- The state `loadAll` produces in the duplicate-id scenario. -/
def stOutC5 : MState :=
  (loadAll envC5 emptyMState).getD emptyMState

/-- A tracked record for the `setEnabled` scenario. -/
def pRecC6 : PluginRecord :=
  { id := .str "p1", dir := "U/plugins/p1", manifest := .obj [],
    enabled := true, mod := none, mainPath := none }

/-- A registry holding the record `pRecC6`. -/
def stC6 : MState :=
  { emptyMState with plugins := [pRecC6] }

/-- Environment in which `p1`'s manifest reads back successfully. -/
def envC6 : Env :=
  { envBase with
      readManifestE := fun p =>
        if p = "U/plugins/p1/plugin.json" then .ok (.obj [("enabled", .bool true)])
        else .error "missing" }

/-- A web-request entry whose listener returns the non-object `5`. -/
def wrC7 : WRHandler :=
  ⟨JVal.null, fun _ => .ret (.num 5)⟩

/-- A state carrying the single web-request entry `wrC7`. -/
def stC7 : MState :=
  { emptyMState with webRequestHandlers := [wrC7] }

/-- Tracked records for the reload scenario, with distinct resolved
main paths. -/
def pRecA : PluginRecord :=
  { id := .str "a", dir := "A/plugins/a", manifest := .obj [],
    enabled := true, mod := none, mainPath := some "A/plugins/a/m.js" }

/-- Second tracked record for the reload scenario. -/
def pRecB : PluginRecord :=
  { id := .str "b", dir := "A/plugins/b", manifest := .obj [],
    enabled := true, mod := none, mainPath := some "A/plugins/b/m.js" }

/-- A registry tracking `pRecA` and `pRecB` with both modules cached. -/
def stC8 : MState :=
  { emptyMState with plugins := [pRecA, pRecB], requireCache := ["ka", "kb"] }

/-- Environment resolving each record's main path to its cache key. -/
def envC8 : Env :=
  { envBase with
      resolvePath := fun p =>
        if p = "A/plugins/a/m.js" then some "ka"
        else if p = "A/plugins/b/m.js" then some "kb"
        else none }

/-- Environment for discovery: the bundled root lists a disabled plugin
`g`, a candidate `bad` with an unparsable manifest, and an enabled
plugin `u`. -/
def envC9 : Env :=
  { envBase with
      readdir := fun r =>
        if r = "A/plugins" then some [⟨"g", true⟩, ⟨"bad", true⟩, ⟨"u", true⟩]
        else none
      readManifestE := fun p =>
        if p = "A/plugins/g/plugin.json" then .ok (.obj [("enabled", .bool false)])
        else if p = "A/plugins/u/plugin.json" then .ok (.obj [])
        else .error "parse error" }

/-- A discovery environment identical to `envC9` on the filesystem but
with a `require` that returns a module everywhere — `discoverPlugins`
must not notice the difference. -/
def envC9req : Env :=
  { envC9 with requireMod := fun _ => some modOk }

/-- The state `loadAll` produces from `stC1` under `envBase`. -/
def stOutC1 : MState :=
  (loadAll envBase stC1).getD emptyMState

/-- The second record built in the throwing-`activate` scenario
(plugin `b`). -/
def pOutC4b : PluginRecord :=
  stOutC4.plugins.getD 1 pRecA

/-! ## Helper lemmas: association lists and manifest normalization -/

theorem lookup_setAssoc_self (fs : List (String × JVal)) (k : String) (x : JVal) :
    (setAssoc fs k x).lookup k = some x := by
  induction fs with
  | nil => simp [setAssoc, List.lookup]
  | cons p rest ih =>
    obtain ⟨k', v'⟩ := p
    by_cases h : k' = k
    · subst h
      simp [setAssoc, List.lookup]
    · have hb : (k == k') = false := beq_eq_false_iff_ne.mpr (Ne.symm h)
      simp [setAssoc, h, List.lookup, hb, ih]

theorem lookup_setAssoc_ne (fs : List (String × JVal)) (k k' : String) (x : JVal)
    (h : k' ≠ k) : (setAssoc fs k x).lookup k' = fs.lookup k' := by
  have hb : (k' == k) = false := beq_eq_false_iff_ne.mpr h
  induction fs with
  | nil => simp [setAssoc, List.lookup, hb]
  | cons p rest ih =>
    obtain ⟨ka, va⟩ := p
    by_cases hk : ka = k
    · subst hk
      simp [setAssoc, List.lookup, hb]
    · simp [setAssoc, hk, List.lookup, ih]

theorem getField_setField_self (fs : List (String × JVal)) (k : String) (x : JVal) :
    getField (setField (.obj fs) k x) k = x := by
  simp [setField, getField, lookup_setAssoc_self]

theorem getField_setField_ne (m : JVal) (k k' : String) (x : JVal) (h : k' ≠ k) :
    getField (setField m k x) k' = getField m k' := by
  cases m <;> simp [setField, getField, lookup_setAssoc_ne _ _ _ _ h]

theorem getField_normStepCats_authors (m : JVal) :
    getField (normStepCats m) "authors" = getField m "authors" := by
  have hne : ("authors" : String) ≠ "categories" := by decide
  unfold normStepCats
  split <;> simp [getField_setField_ne _ _ _ _ hne]

theorem normStepCats_obj (fs : List (String × JVal)) :
    ∃ fs', normStepCats (.obj fs) = .obj fs' := by
  unfold normStepCats
  split <;> simp [setField]

theorem normStepAuthors_getField_obj (fs : List (String × JVal)) :
    getField (normStepAuthors (.obj fs)) "authors"
      = normAuthorsVal (getField (.obj fs) "authors") := by
  unfold normStepAuthors
  cases hau : getField (.obj fs) "authors" <;>
    simp [hau, normAuthorsVal, getField_setField_self]

theorem normalize_obj_authors (fs : List (String × JVal)) :
    getField (normStepAuthors (normStepCats (.obj fs))) "authors"
      = normAuthorsVal (getField (.obj fs) "authors") := by
  obtain ⟨fs', h⟩ := normStepCats_obj fs
  rw [h, normStepAuthors_getField_obj, ← h, getField_normStepCats_authors]

theorem authorKeep_sound (x : JVal) (h : authorKeep x = true) :
    jsTypeof x = "string" ∨
      (truthy x = true ∧ jsTypeof x = "object" ∧
        jsTypeof (getField x "name") = "string") := by
  unfold authorKeep at h
  cases x <;> simp_all [jsTypeof, truthy]

/-! ## Helper lemmas: JS `Set` dedup -/

theorem foldl_jsSetInsert_nodup (xs : List String) :
    ∀ acc : List String, acc.Nodup → (xs.foldl jsSetInsert acc).Nodup := by
  induction xs with
  | nil => intro acc h; simpa using h
  | cons x rest ih =>
    intro acc h
    simp only [List.foldl_cons]
    apply ih
    unfold jsSetInsert
    by_cases hx : x ∈ acc
    · simpa [hx]
    · simp [hx, List.nodup_append, h]

theorem foldl_jsSetInsert_mem (xs : List String) :
    ∀ (acc : List String) (y : String),
      y ∈ xs.foldl jsSetInsert acc ↔ y ∈ acc ∨ y ∈ xs := by
  induction xs with
  | nil => simp
  | cons x rest ih =>
    intro acc y
    simp only [List.foldl_cons, ih, List.mem_cons]
    unfold jsSetInsert
    by_cases hx : x ∈ acc
    · rw [if_pos hx]
      constructor
      · rintro (hy | hy)
        · exact Or.inl hy
        · exact Or.inr (Or.inr hy)
      · rintro (hy | rfl | hy)
        · exact Or.inl hy
        · exact Or.inl hx
        · exact Or.inr hy
    · rw [if_neg hx]
      constructor
      · rintro (hy | hy)
        · rcases List.mem_append.mp hy with h1 | h1
          · exact Or.inl h1
          · exact Or.inr (Or.inl (List.mem_singleton.mp h1))
        · exact Or.inr (Or.inr hy)
      · rintro (hy | rfl | hy)
        · exact Or.inl (List.mem_append_left [x] hy)
        · exact Or.inl (List.mem_append_right acc (List.mem_singleton_self y))
        · exact Or.inr hy

/-! ## Helper lemmas: web-request decision -/

theorem webRequestDecision_ret_object (l : JVal → LOutcome) (details v : JVal)
    (hret : l details = .ret v) (hobj : isObjectValue v = true) :
    webRequestDecision l details = v := by
  unfold webRequestDecision
  rw [hret]
  cases v <;> simp_all [isObjectValue, truthy, jsTypeof]

theorem webRequestDecision_ret_nonobject (l : JVal → LOutcome) (details v : JVal)
    (hret : l details = .ret v) (hobj : isObjectValue v = false) :
    webRequestDecision l details = cancelFalse := by
  unfold webRequestDecision
  rw [hret]
  cases v <;> simp_all [isObjectValue, truthy, jsTypeof]

theorem webRequestDecision_throws (l : JVal → LOutcome) (details : JVal)
    (h : l details = .throws) : webRequestDecision l details = cancelFalse := by
  unfold webRequestDecision
  rw [h]

/-! ## Helper lemmas: require-cache invalidation -/

theorem clearRequireCache_cache_subset (env : Env) (st : MState) (p : PluginRecord) :
    (clearRequireCache env st p).requireCache ⊆ st.requireCache := by
  unfold clearRequireCache
  split
  · exact fun a h => h
  · split
    · exact fun a h => h
    · exact fun a ha => (List.mem_filter.mp ha).1

theorem clearRequireCache_other_fields (env : Env) (st : MState) (p : PluginRecord) :
    (clearRequireCache env st p).plugins = st.plugins ∧
    (clearRequireCache env st p).rendererPreloads = st.rendererPreloads ∧
    (clearRequireCache env st p).rendererPages = st.rendererPages ∧
    (clearRequireCache env st p).webRequestHandlers = st.webRequestHandlers ∧
    (clearRequireCache env st p).contextMenuContribs = st.contextMenuContribs ∧
    (clearRequireCache env st p).activationTrace = st.activationTrace := by
  unfold clearRequireCache
  split
  · exact ⟨rfl, rfl, rfl, rfl, rfl, rfl⟩
  · split
    · exact ⟨rfl, rfl, rfl, rfl, rfl, rfl⟩
    · exact ⟨rfl, rfl, rfl, rfl, rfl, rfl⟩

theorem clearRequireCache_keeps (env : Env) (st : MState) (p : PluginRecord)
    (k : String) (hk : k ∈ st.requireCache)
    (hnot : ∀ mp, p.mainPath = some mp → env.resolvePath mp ≠ some k) :
    k ∈ (clearRequireCache env st p).requireCache := by
  unfold clearRequireCache
  split
  · exact hk
  · rename_i mp hmp
    split
    · exact hk
    · rename_i k' hk'
      have hne : k ≠ k' := by
        intro h
        exact hnot mp hmp (h ▸ hk')
      simp [List.mem_filter, hk, hne]

theorem clearRequireCache_removes (env : Env) (st : MState) (p : PluginRecord)
    (mp : String) (hmp : p.mainPath = some mp)
    (k : String) (hk : env.resolvePath mp = some k) :
    k ∉ (clearRequireCache env st p).requireCache := by
  unfold clearRequireCache
  simp only [hmp, hk]
  simp [List.mem_filter]

theorem clearAllCaches_cache_subset (env : Env) (ps : List PluginRecord) :
    ∀ st : MState, (clearAllCaches env st ps).requireCache ⊆ st.requireCache := by
  induction ps with
  | nil => intro st; exact fun a h => h
  | cons p rest ih =>
    intro st
    exact fun a h => clearRequireCache_cache_subset env st p (ih (clearRequireCache env st p) h)

theorem clearAllCaches_removes (env : Env) (ps : List PluginRecord) :
    ∀ (st : MState) (p : PluginRecord), p ∈ ps →
      ∀ mp, p.mainPath = some mp → ∀ k, env.resolvePath mp = some k →
        k ∉ (clearAllCaches env st ps).requireCache := by
  induction ps with
  | nil => intro st p hp; cases hp
  | cons q rest ih =>
    intro st p hp mp hmp k hk
    rcases List.mem_cons.mp hp with h | h
    · subst h
      intro hmem
      exact clearRequireCache_removes env st p mp hmp k hk
        (clearAllCaches_cache_subset env rest (clearRequireCache env st p) hmem)
    · exact ih (clearRequireCache env st q) p h mp hmp k hk

/-! ## Helper lemmas: scan phase of `loadAll` -/

theorem scanEntries_eq (env : Env) (root : String) (es : List DirEnt) :
    ∀ st : MState,
      scanEntries env root st es =
        if es.any (fun e => isCrash (entryRes env root e)) then none
        else some { st with
          plugins := st.plugins ++ es.filterMap (recOf env root),
          rendererPreloads := st.rendererPreloads ++ es.filterMap (preOf env root) } := by
  induction es with
  | nil => intro st; simp [scanEntries]
  | cons e rest ih =>
    intro st
    simp only [scanEntries, processEntry, List.any_cons, List.filterMap_cons]
    cases h : entryRes env root e with
    | skip => simp [isCrash, recOf, preOf, h, ih]
    | crash => simp [isCrash, h]
    | found r pre =>
      cases pre with
      | none =>
        simp [isCrash, recOf, preOf, h, ih, List.append_assoc]
      | some rp =>
        simp [isCrash, recOf, preOf, h, ih, List.append_assoc]

theorem scanRoot_eq (env : Env) (st : MState) (root : String) :
    scanRoot env st root =
      if rootCrashes env root then none
      else some { st with
        plugins := st.plugins ++ rootRecords env root,
        rendererPreloads := st.rendererPreloads ++ rootPreloads env root } := by
  unfold scanRoot rootCrashes rootRecords rootPreloads
  cases env.readdir root with
  | none => simp
  | some es => simp [scanEntries_eq]

theorem scanRoots_clear_eq (env : Env) (st : MState) :
    scanRoots env (clearLists st) (getPluginDirs env) =
      if loadCrashes env then none
      else some { clearLists st with
        plugins := allRecords env,
        rendererPreloads := allPreloads env } := by
  unfold getPluginDirs loadCrashes allRecords allPreloads appPluginsDir userPluginsDir
  simp only [scanRoots, scanRoot_eq]
  by_cases h1 : rootCrashes env (pjoin env.appPath "plugins")
  · simp [h1]
  · by_cases h2 : rootCrashes env (pjoin env.userDataPath "plugins")
    · simp [h1, h2, scanRoots]
    · simp [h1, h2, scanRoots, scanRoot_eq, clearLists, List.append_assoc]

/-! ## Helper lemmas: activation phase of `loadAll` -/

theorem runActions_fields (env : Env) (pid : JVal) (acts : List RegAction) :
    ∀ st : MState,
      (runActions env pid st acts).plugins = st.plugins ∧
      (runActions env pid st acts).rendererPreloads = st.rendererPreloads ∧
      (runActions env pid st acts).requireCache = st.requireCache ∧
      (runActions env pid st acts).activationTrace = st.activationTrace ∧
      (∃ t, (runActions env pid st acts).webRequestHandlers
              = st.webRequestHandlers ++ t) ∧
      (∃ t, (runActions env pid st acts).contextMenuContribs
              = st.contextMenuContribs ++ t) := by
  induction acts with
  | nil =>
    intro st
    refine ⟨rfl, rfl, rfl, rfl, ⟨[], ?_⟩, ⟨[], ?_⟩⟩ <;> simp [runActions]
  | cons a rest ih =>
    intro st
    cases a with
    | regWebRequest f l =>
      obtain ⟨h1, h2, h3, h4, ⟨tw, hw⟩, ⟨tm, hm⟩⟩ :=
        ih { st with webRequestHandlers := st.webRequestHandlers ++ [⟨f, l⟩] }
      have hstep : runActions env pid st (RegAction.regWebRequest f l :: rest)
          = runActions env pid
              { st with webRequestHandlers := st.webRequestHandlers ++ [⟨f, l⟩] } rest := rfl
      rw [hstep]
      refine ⟨h1, h2, h3, h4, ⟨⟨f, l⟩ :: tw, ?_⟩, ⟨tm, hm⟩⟩
      rw [hw]
      simp
    | contributeMenu n =>
      obtain ⟨h1, h2, h3, h4, ⟨tw, hw⟩, ⟨tm, hm⟩⟩ :=
        ih { st with contextMenuContribs := st.contextMenuContribs ++ [n] }
      have hstep : runActions env pid st (RegAction.contributeMenu n :: rest)
          = runActions env pid
              { st with contextMenuContribs := st.contextMenuContribs ++ [n] } rest := rfl
      rw [hstep]
      refine ⟨h1, h2, h3, h4, ⟨tw, hw⟩, ⟨n :: tm, ?_⟩⟩
      rw [hm]
      simp
    | registerPage idv htmlv =>
      by_cases h : (truthy idv && truthy htmlv) = true
      · have hstep : runActions env pid st (RegAction.registerPage idv htmlv :: rest)
            = { st with rendererPages :=
                  st.rendererPages ++ [⟨idv, htmlv, env.toFileURL htmlv, pid⟩] } := by
          simp only [runActions]
          rw [if_pos h]
        rw [hstep]
        refine ⟨rfl, rfl, rfl, rfl, ⟨[], ?_⟩, ⟨[], ?_⟩⟩ <;> simp
      · have hstep : runActions env pid st (RegAction.registerPage idv htmlv :: rest)
            = runActions env pid st rest := by
          simp only [runActions]
          rw [if_neg h]
        rw [hstep]
        exact ih st

theorem activateOne_not_invoked (env : Env) (st : MState) (p : PluginRecord)
    (h : invoked p = false) : activateOne env st p = st := by
  cases hm : p.mod with
  | none => simp [activateOne, hm]
  | some m =>
    simp only [invoked, hm] at h
    simp only [activateOne, hm]
    cases hpe : p.enabled <;> cases hmt : m.isTruthy <;>
      cases hac : m.hasActivateFn <;> cases hic : m.isCallable <;>
      simp_all

theorem activateOne_invoked_eq (env : Env) (st : MState) (p : PluginRecord)
    (m : ModVal) (hm : p.mod = some m) (h : invoked p = true) :
    activateOne env st p
      = runActions env p.id
          { st with activationTrace := st.activationTrace ++ [p.id] } m.actions := by
  simp only [invoked, hm] at h
  obtain ⟨h1, h2, h3⟩ :
      p.enabled = true ∧ m.isTruthy = true ∧ (m.hasActivateFn || m.isCallable) = true := by
    simpa [Bool.and_assoc] using h
  simp [activateOne, hm, h1, h2, h3]

theorem activateOne_fields (env : Env) (st : MState) (p : PluginRecord) :
    (activateOne env st p).plugins = st.plugins ∧
    (activateOne env st p).rendererPreloads = st.rendererPreloads ∧
    (activateOne env st p).requireCache = st.requireCache ∧
    (activateOne env st p).activationTrace
      = st.activationTrace ++ (if invoked p then [p.id] else []) ∧
    (∃ t, (activateOne env st p).webRequestHandlers = st.webRequestHandlers ++ t) ∧
    (∃ t, (activateOne env st p).contextMenuContribs = st.contextMenuContribs ++ t) := by
  by_cases h : invoked p = true
  · cases hm : p.mod with
    | none => simp [invoked, hm] at h
    | some m =>
      rw [activateOne_invoked_eq env st p m hm h, if_pos h]
      obtain ⟨h1, h2, h3, h4, hw, hmenu⟩ :=
        runActions_fields env p.id m.actions
          { st with activationTrace := st.activationTrace ++ [p.id] }
      exact ⟨h1, h2, h3, h4, hw, hmenu⟩
  · have hfalse : invoked p = false := Bool.eq_false_iff.mpr h
    rw [activateOne_not_invoked env st p hfalse, if_neg h]
    refine ⟨rfl, rfl, rfl, ?_, ⟨[], ?_⟩, ⟨[], ?_⟩⟩ <;> simp

theorem activateList_fields (env : Env) (ps : List PluginRecord) :
    ∀ st : MState,
      (activateList env st ps).plugins = st.plugins ∧
      (activateList env st ps).rendererPreloads = st.rendererPreloads ∧
      (activateList env st ps).requireCache = st.requireCache ∧
      (activateList env st ps).activationTrace
        = st.activationTrace ++ (ps.filter invoked).map (fun p => p.id) ∧
      (∃ t, (activateList env st ps).webRequestHandlers = st.webRequestHandlers ++ t) ∧
      (∃ t, (activateList env st ps).contextMenuContribs = st.contextMenuContribs ++ t) := by
  induction ps with
  | nil =>
    intro st
    refine ⟨rfl, rfl, rfl, ?_, ⟨[], ?_⟩, ⟨[], ?_⟩⟩ <;> simp [activateList]
  | cons p rest ih =>
    intro st
    obtain ⟨o1, o2, o3, o4, ⟨ow, how⟩, ⟨om, hom⟩⟩ := activateOne_fields env st p
    obtain ⟨h1, h2, h3, h4, ⟨tw, hw⟩, ⟨tm, hm⟩⟩ := ih (activateOne env st p)
    have hstep : activateList env st (p :: rest)
        = activateList env (activateOne env st p) rest := rfl
    rw [hstep]
    refine ⟨h1.trans o1, h2.trans o2, h3.trans o3, ?_, ⟨ow ++ tw, ?_⟩, ⟨om ++ tm, ?_⟩⟩
    · rw [h4, o4]
      by_cases hp : invoked p
      · simp [hp, List.filter_cons, List.append_assoc]
      · simp [hp, List.filter_cons]
    · rw [hw, how, List.append_assoc]
    · rw [hm, hom, List.append_assoc]

/-! ## Helper lemmas: `loadAll` characterization -/

theorem loadAll_char (env : Env) (st st' : MState) (h : loadAll env st = some st') :
    st'.plugins = allRecords env ∧
    st'.rendererPreloads = allPreloads env ∧
    st'.activationTrace = ((allRecords env).filter invoked).map (fun p => p.id) ∧
    st'.requireCache = st.requireCache ∧
    (∃ t, st'.webRequestHandlers = st.webRequestHandlers ++ t) ∧
    (∃ t, st'.contextMenuContribs = st.contextMenuContribs ++ t) ∧
    loadCrashes env = false := by
  unfold loadAll at h
  rw [scanRoots_clear_eq] at h
  by_cases hc : loadCrashes env = true
  · rw [if_pos hc] at h
    cases h
  · rw [if_neg hc] at h
    set st1 : MState := { clearLists st with
      plugins := allRecords env, rendererPreloads := allPreloads env } with hst1
    have h' : activateList env st1 st1.plugins = st' := by
      simpa using h
    obtain ⟨h1, h2, h3, h4, ⟨tw, hw⟩, ⟨tm, hm⟩⟩ := activateList_fields env st1.plugins st1
    rw [h'] at h1 h2 h3 h4 hw hm
    have hp1 : st1.plugins = allRecords env := rfl
    have hp3 : st1.activationTrace = [] := rfl
    refine ⟨h1.trans hp1, h2.trans rfl, ?_, h3.trans rfl, ⟨tw, ?_⟩, ⟨tm, ?_⟩,
      Bool.eq_false_iff.mpr hc⟩
    · rw [h4, hp3, hp1]
      simp
    · exact hw
    · exact hm

/-! ## Helper lemmas: where records come from -/

theorem mainOutcome_mod (env : Env) (dir : String) (manifest : JVal)
    (mod : Option ModVal) (mainPath : Option String)
    (h : mainOutcome env dir manifest = some (mod, mainPath))
    (m : ModVal) (hm : mod = some m) :
    ∃ mp, mainPath = some mp ∧ env.requireMod mp = some m := by
  simp only [mainOutcome] at h
  split at h
  · split at h
    · rename_i s hs
      split at h
      · rename_i m0 hr
        cases h
        cases hm
        exact ⟨pjoin dir s, rfl, hr⟩
      · cases h
        cases hm
    · cases h
  · cases h
    cases hm

theorem entryRes_found_mod (env : Env) (root : String) (ent : DirEnt)
    (r : PluginRecord) (pre : Option String)
    (h : entryRes env root ent = .found r pre) :
    ∀ m, r.mod = some m → ∃ mp, r.mainPath = some mp ∧ env.requireMod mp = some m := by
  intro m hm
  simp only [entryRes] at h
  by_cases hd : (!ent.isDir) = true
  · rw [if_pos hd] at h
    cases h
  · rw [if_neg hd] at h
    cases hman : (env.readManifestE (pjoin (pjoin root ent.name) "plugin.json")).toOption.bind
        normalizeManifest with
    | none =>
      simp only [hman] at h
      cases h
    | some manifest =>
      simp only [hman] at h
      by_cases hen : (!jsIsFalse (getField manifest "enabled")) = true
      · rw [if_pos hen] at h
        cases hmo : mainOutcome env (pjoin root ent.name) manifest with
        | none =>
          simp only [hmo] at h
          cases h
        | some pr =>
          obtain ⟨mod0, mainPath0⟩ := pr
          simp only [hmo] at h
          cases hpo : preloadOutcome env (pjoin root ent.name) manifest with
          | none =>
            simp only [hpo] at h
            cases h
          | some pre0 =>
            simp only [hpo] at h
            cases h
            exact mainOutcome_mod env _ manifest mod0 mainPath0 hmo m hm
      · rw [if_neg hen] at h
        cases h
        cases hm

theorem allRecords_src (env : Env) (r : PluginRecord) (h : r ∈ allRecords env) :
    ∃ root ent pre, entryRes env root ent = .found r pre := by
  unfold allRecords rootRecords at h
  rcases List.mem_append.mp h with h1 | h1 <;>
  · revert h1
    split
    · intro h1; cases h1
    · intro h1
      obtain ⟨ent, hent, hrec⟩ := List.mem_filterMap.mp h1
      unfold recOf at hrec
      split at hrec
      · rename_i r' pre' heq
        cases hrec
        exact ⟨_, ent, pre', heq⟩
      · cases hrec

/-! ## Claim theorems -/

/-- Claim C10: `getRendererPreloads()` returns each preload path at most
once (its result is duplicate-free even when the internal preload list
holds the same absolute path several times), and it returns exactly the
paths of the internal list. -/
theorem C10_getRendererPreloads_nodup (st : MState) :
    (getRendererPreloads st).Nodup ∧
    ∀ x, x ∈ getRendererPreloads st ↔ x ∈ st.rendererPreloads := by
  constructor
  · exact foldl_jsSetInsert_nodup st.rendererPreloads [] List.nodup_nil
  · intro x
    have h := foldl_jsSetInsert_mem st.rendererPreloads [] x
    simpa [getRendererPreloads, jsSetFrom] using h

/-- Claim C7: for every contributed web-request entry,
`applyWebRequestHandlers` installs a hook computing the guarded
decision, and for every request that decision forwards an object result
as-is, while a non-object result and a thrown exception both resolve to
`{cancel:false}`. -/
theorem C7_webRequest_decision (st : MState) (e : WRHandler)
    (he : e ∈ st.webRequestHandlers) (details : JVal) :
    (∃ hk ∈ applyWebRequestHandlers true st,
        hk.hook details = webRequestDecision e.listener details) ∧
    (∀ v, e.listener details = .ret v → isObjectValue v = true →
        webRequestDecision e.listener details = v) ∧
    (∀ v, e.listener details = .ret v → isObjectValue v = false →
        webRequestDecision e.listener details = cancelFalse) ∧
    (e.listener details = .throws →
        webRequestDecision e.listener details = cancelFalse) := by
  refine ⟨?_, ?_, ?_, ?_⟩
  · refine ⟨{ filter := jsOr e.filter (.obj [])
              hook := fun d => webRequestDecision e.listener d }, ?_, rfl⟩
    unfold applyWebRequestHandlers
    rw [if_pos rfl]
    exact List.mem_map_of_mem _ he
  · exact fun v hr ho => webRequestDecision_ret_object e.listener details v hr ho
  · exact fun v hr ho => webRequestDecision_ret_nonobject e.listener details v hr ho
  · exact fun hh => webRequestDecision_throws e.listener details hh

/-- Witness for C7: the concrete entry `wrC7`, whose listener returns
the non-object value `5`, resolves to the `{cancel:false}` decision. -/
theorem C7_webRequest_decision_witness :
    wrC7 ∈ stC7.webRequestHandlers ∧
    webRequestDecision wrC7.listener (JVal.str "d") = cancelFalse :=
  ⟨List.mem_singleton_self wrC7,
   (C7_webRequest_decision stC7 wrC7 (List.mem_singleton_self wrC7)
      (JVal.str "d")).2.2.1 (JVal.num 5) rfl rfl⟩

/-- Counterexample to C2 as stated: `loadAll`'s normalization of a
manifest whose `authors` array holds the single object `{name:"X"}`
keeps that object itself (the filter keeps it, nothing maps it to its
`name`), so the normalized `authors` has an element that is not a
string. -/
theorem C2_authors_counterexample :
    normalizeManifest mC2 = some mC2norm ∧
    getField mC2norm "authors" = .arr [.obj [("name", .str "X")]] ∧
    jsTypeof (.obj [("name", .str "X")]) ≠ "string" :=
  ⟨rfl, rfl, by decide⟩

/-- Claim C2 (amended): in `loadAll`'s normalization, a string `authors`
becomes a one-element array, an array keeps exactly the elements that
are strings or truthy objects carrying a string `name` (an object is
kept as an object, not replaced by its name), `null`/absent becomes the
empty array, and on an object manifest the normalized `authors` field is
exactly this normalization of the raw field value. -/
theorem C2_authors_normalization :
    (∀ s, normAuthorsVal (.str s) = .arr [.str s]) ∧
    (∀ xs, normAuthorsVal (.arr xs) = .arr (xs.filter authorKeep)) ∧
    (∀ x, authorKeep x = true →
      jsTypeof x = "string" ∨
        (truthy x = true ∧ jsTypeof x = "object" ∧
          jsTypeof (getField x "name") = "string")) ∧
    normAuthorsVal .null = .arr [] ∧
    normAuthorsVal .undefined = .arr [] ∧
    (∀ fs, getField (normStepAuthors (normStepCats (.obj fs))) "authors"
        = normAuthorsVal (getField (.obj fs) "authors")) :=
  ⟨fun _ => rfl, fun _ => rfl, authorKeep_sound, rfl, rfl, normalize_obj_authors⟩

/-- Witness for C2 (amended): the object `{name:"X"}` passes the filter
and satisfies the element property. -/
theorem C2_authors_normalization_witness :
    authorKeep (JVal.obj [("name", JVal.str "X")]) = true ∧
    (jsTypeof (JVal.obj [("name", JVal.str "X")]) = "string" ∨
      (truthy (JVal.obj [("name", JVal.str "X")]) = true ∧
        jsTypeof (JVal.obj [("name", JVal.str "X")]) = "object" ∧
        jsTypeof (getField (JVal.obj [("name", JVal.str "X")]) "name") = "string")) :=
  ⟨by decide, C2_authors_normalization.2.2.1 (JVal.obj [("name", JVal.str "X")]) (by decide)⟩

/-- Claim C6: `setEnabled` fails loudly — an id not in the registry
raises the explicit not-found error, a failed manifest read/parse raises
the explicit read-failure error, a rejected write propagates its error,
and on success the manifest is rewritten with the `enabled` boolean set
(visible in the written object when the manifest parses to an object)
and `true` is returned.  No failure is swallowed. -/
theorem C6_setEnabled_loud (env : Env) (st : MState) (id : String) (en : JVal) :
    (st.plugins.find? (fun x => jsStrictEqStr x.id id) = none →
      setEnabled env st id en = .error ("Plugin not found: " ++ id)) ∧
    (∀ p, st.plugins.find? (fun x => jsStrictEqStr x.id id) = some p →
      (∀ e, env.readManifestE (pjoin p.dir "plugin.json") = .error e →
        setEnabled env st id en = .error ("Manifest read failed: " ++ e)) ∧
      (∀ mf, env.readManifestE (pjoin p.dir "plugin.json") = .ok mf →
        (∀ e, env.writeFile (pjoin p.dir "plugin.json")
              (setField mf "enabled" (.bool (truthy en))) = .error e →
          setEnabled env st id en = .error e) ∧
        (env.writeFile (pjoin p.dir "plugin.json")
              (setField mf "enabled" (.bool (truthy en))) = .ok () →
          setEnabled env st id en
            = .ok (pjoin p.dir "plugin.json",
                   setField mf "enabled" (.bool (truthy en)), true) ∧
          ∀ fs, mf = .obj fs →
            getField (setField mf "enabled" (.bool (truthy en))) "enabled"
              = .bool (truthy en)))) := by
  constructor
  · intro hfind
    simp [setEnabled, hfind]
  · intro p hfind
    constructor
    · intro e hre
      simp [setEnabled, hfind, hre]
    · intro mf hrm
      constructor
      · intro e hwe
        simp [setEnabled, hfind, hrm, hwe]
      · intro hwo
        constructor
        · simp [setEnabled, hfind, hrm, hwo]
        · intro fs hmf
          subst hmf
          exact getField_setField_self fs "enabled" (.bool (truthy en))

/-- Witness for C6: against the concrete registry `stC6`, a missing id
fails with the explicit not-found error, and toggling `p1` off succeeds,
rewriting its manifest with `enabled` set to `false`. -/
theorem C6_setEnabled_loud_witness :
    (stC6.plugins.find? (fun x => jsStrictEqStr x.id "missing") = none ∧
      setEnabled envC6 stC6 "missing" (JVal.bool false)
        = .error ("Plugin not found: " ++ "missing")) ∧
    (stC6.plugins.find? (fun x => jsStrictEqStr x.id "p1") = some pRecC6 ∧
      envC6.readManifestE (pjoin pRecC6.dir "plugin.json")
        = .ok (JVal.obj [("enabled", JVal.bool true)]) ∧
      envC6.writeFile (pjoin pRecC6.dir "plugin.json")
          (setField (JVal.obj [("enabled", JVal.bool true)]) "enabled"
            (.bool (truthy (JVal.bool false)))) = .ok () ∧
      setEnabled envC6 stC6 "p1" (JVal.bool false)
        = .ok (pjoin pRecC6.dir "plugin.json",
               setField (JVal.obj [("enabled", JVal.bool true)]) "enabled"
                 (.bool (truthy (JVal.bool false))), true)) :=
  ⟨⟨rfl, (C6_setEnabled_loud envC6 stC6 "missing" (JVal.bool false)).1 rfl⟩,
   ⟨rfl, rfl, rfl,
    ((((C6_setEnabled_loud envC6 stC6 "p1" (JVal.bool false)).2 pRecC6 rfl).2
        (JVal.obj [("enabled", JVal.bool true)]) rfl).2 rfl).1⟩⟩

/-- Claim C8: `reload` with a truthy id drops only the first matching
tracked record's resolved cache key (every key not resolving from that
record's main path survives) and then always runs a full `loadAll`; with
an untracked id it clears nothing and still runs `loadAll`; with no id
it first drops every tracked record's resolved key; and a failing
`require.resolve` is swallowed, leaving the state untouched so the
subsequent `loadAll` still proceeds. -/
theorem C8_reload_invalidation (env : Env) (st : MState) (s : String) :
    (s ≠ "" →
      (∀ p, st.plugins.find? (fun x => jsStrictEqStr x.id s) = some p →
        reload env st (some s) = loadAll env (clearRequireCache env st p) ∧
        (clearRequireCache env st p).plugins = st.plugins ∧
        (∀ k, k ∈ st.requireCache →
          (∀ mp, p.mainPath = some mp → env.resolvePath mp ≠ some k) →
          k ∈ (clearRequireCache env st p).requireCache) ∧
        (∀ k, k ∈ (clearRequireCache env st p).requireCache → k ∈ st.requireCache)) ∧
      (st.plugins.find? (fun x => jsStrictEqStr x.id s) = none →
        reload env st (some s) = loadAll env st)) ∧
    (reload env st none = loadAll env (clearAllCaches env st st.plugins)) ∧
    (∀ p, p ∈ st.plugins → ∀ mp, p.mainPath = some mp →
      ∀ k, env.resolvePath mp = some k →
        k ∉ (clearAllCaches env st st.plugins).requireCache) ∧
    (∀ p mp, p.mainPath = some mp → env.resolvePath mp = none →
      clearRequireCache env st p = st) := by
  refine ⟨?_, rfl, ?_, ?_⟩
  · intro hs
    have hbne : (s != "") = true := bne_iff_ne.mpr hs
    constructor
    · intro p hfind
      refine ⟨?_, (clearRequireCache_other_fields env st p).1,
        clearRequireCache_keeps env st p, clearRequireCache_cache_subset env st p⟩
      simp [reload, hbne, hfind]
    · intro hfind
      simp [reload, hbne, hfind]
  · exact fun p hp mp hmp k hk => clearAllCaches_removes env st.plugins st p hp mp hmp k hk
  · intro p mp hmp hres
    simp [clearRequireCache, hmp, hres]

/-- Witness for C8: in the concrete two-plugin registry, `reload("a")`
drops only `a`'s cache key (leaving `b`'s), and the no-id invalidation
empties the cache; both are followed by a full `loadAll`. -/
theorem C8_reload_invalidation_witness :
    stC8.plugins.find? (fun x => jsStrictEqStr x.id "a") = some pRecA ∧
    reload envC8 stC8 (some "a") = loadAll envC8 (clearRequireCache envC8 stC8 pRecA) ∧
    (clearRequireCache envC8 stC8 pRecA).requireCache = ["kb"] ∧
    reload envC8 stC8 none = loadAll envC8 (clearAllCaches envC8 stC8 stC8.plugins) ∧
    (clearAllCaches envC8 stC8 stC8.plugins).requireCache = [] :=
  ⟨rfl,
   (((C8_reload_invalidation envC8 stC8 "a").1 (by decide)).1 pRecA rfl).1,
   rfl,
   (C8_reload_invalidation envC8 stC8 "a").2.1,
   rfl⟩

/-- Counterexample to C1 as stated: with both plugin roots unreadable,
`loadAll` over a state carrying a web-request entry and a context-menu
contributor from an earlier pass leaves both in place — those two
aggregator lists are not cleared by a full load, so previously
contributed entries survive into the rebuilt state. -/
theorem C1_aggregators_survive_counterexample :
    stC1.contextMenuContribs = [7] ∧
    stC1.webRequestHandlers.length = 1 ∧
    (loadAll envBase stC1).map (fun s => s.contextMenuContribs) = some [7] ∧
    (loadAll envBase stC1).map (fun s => s.webRequestHandlers.length) = some 1 :=
  ⟨rfl, rfl, rfl, rfl⟩

/-- Claim C1 (amended): every `loadAll` pass rebuilds the plugin record
list, the renderer-preload list and the page registrations from scratch
(the result is the same as from a state with those cleared, and the
records/preloads are exactly the ones discovered in this pass), but the
collected web-request entries and context-menu contributors are NOT
cleared: the previous pass's entries survive in place, with this pass's
contributions appended after them. -/
theorem C1_loadAll_rebuild (env : Env) (st : MState) :
    loadAll env st = loadAll env (clearLists st) ∧
    ∀ st', loadAll env st = some st' →
      st'.plugins = allRecords env ∧
      st'.rendererPreloads = allPreloads env ∧
      (∃ t, st'.webRequestHandlers = st.webRequestHandlers ++ t) ∧
      (∃ t, st'.contextMenuContribs = st.contextMenuContribs ++ t) := by
  refine ⟨rfl, ?_⟩
  intro st' h
  obtain ⟨h1, h2, _, _, hw, hm, _⟩ := loadAll_char env st st' h
  exact ⟨h1, h2, hw, hm⟩

/-- Witness for C1 (amended): instantiated at the concrete state
carrying one entry in each aggregator list. -/
theorem C1_loadAll_rebuild_witness :
    loadAll envBase stC1 = some stOutC1 ∧
    (stOutC1.plugins = allRecords envBase ∧
     stOutC1.rendererPreloads = allPreloads envBase ∧
     (∃ t, stOutC1.webRequestHandlers = stC1.webRequestHandlers ++ t) ∧
     (∃ t, stOutC1.contextMenuContribs = stC1.contextMenuContribs ++ t)) :=
  ⟨rfl, (C1_loadAll_rebuild envBase stC1).2 stOutC1 rfl⟩

/-- Claim C3: in any completed `loadAll` pass, a record has a module
handle only if `require` of its resolved main path succeeded and
returned exactly that module; the record list is the full candidate list
from both roots (a failed load neither drops its record nor stops the
scan); the activation trace is exactly the enabled records with a
truthy, invocable module; and a record with no module handle is never
activated. -/
theorem C3_moduleHandle_invariant (env : Env) (st st' : MState)
    (h : loadAll env st = some st') :
    (∀ p, p ∈ st'.plugins → ∀ m, p.mod = some m →
      ∃ mp, p.mainPath = some mp ∧ env.requireMod mp = some m) ∧
    st'.plugins = allRecords env ∧
    st'.activationTrace = (st'.plugins.filter invoked).map (fun p => p.id) ∧
    (∀ p, p ∈ st'.plugins → p.mod = none → invoked p = false) := by
  obtain ⟨h1, _, h3, _⟩ := loadAll_char env st st' h
  refine ⟨?_, h1, ?_, ?_⟩
  · intro p hp m hm
    obtain ⟨root, ent, pre, hfound⟩ := allRecords_src env p (h1 ▸ hp)
    exact entryRes_found_mod env root ent p pre hfound m hm
  · rw [h3, h1]
  · intro p hp hmod
    simp [invoked, hmod]

/-- Witness for C3: in the concrete scenario where plugin `a`'s
`require` throws and plugin `b`'s succeeds, both records exist, `a` has
no module handle, and only `b` is activated. -/
theorem C3_moduleHandle_invariant_witness :
    loadAll envC3 emptyMState = some stOutC3 ∧
    stOutC3.plugins.length = 2 ∧
    stOutC3.plugins.map (fun p => p.mod.isSome) = [false, true] ∧
    stOutC3.activationTrace = [JVal.str "b"] ∧
    (∀ p, p ∈ stOutC3.plugins → ∀ m, p.mod = some m →
      ∃ mp, p.mainPath = some mp ∧ envC3.requireMod mp = some m) :=
  ⟨rfl, rfl, rfl, rfl, (C3_moduleHandle_invariant envC3 emptyMState stOutC3 rfl).1⟩

/-- Claim C4: after any completed `loadAll` pass, every record that is
enabled and has a truthy module with an activation entry point appears
in the activation trace — this holds for every environment, so in
particular regardless of whether any other plugin's entry point throws. -/
theorem C4_activation_isolated (env : Env) (st st' : MState)
    (h : loadAll env st = some st')
    (q : PluginRecord) (hq : q ∈ st'.plugins) (hinv : invoked q = true) :
    q.id ∈ st'.activationTrace := by
  obtain ⟨h1, _, h3, _⟩ := loadAll_char env st st' h
  rw [h3]
  exact List.mem_map_of_mem _ (List.mem_filter.mpr ⟨h1 ▸ hq, hinv⟩)

/-- Witness for C4: in the concrete scenario where plugin `a`'s
`activate` throws, plugin `b` is still activated. -/
theorem C4_activation_isolated_witness :
    loadAll envC4 emptyMState = some stOutC4 ∧
    (∃ m, (stOutC4.plugins.getD 0 pRecA).mod = some m ∧ m.throwsAtEnd = true) ∧
    pOutC4b ∈ stOutC4.plugins ∧ invoked pOutC4b = true ∧
    JVal.str "b" ∈ stOutC4.activationTrace :=
  ⟨rfl, ⟨modThrows, rfl, rfl⟩,
   List.Mem.tail _ (List.Mem.head _), rfl,
   C4_activation_isolated envC4 emptyMState stOutC4 rfl pOutC4b
     (List.Mem.tail _ (List.Mem.head _)) rfl⟩

/-- Claim C5: records are never de-duplicated by id — for any id, the
number of records carrying it after `loadAll` is the sum of the counts
contributed independently by the bundled root and the user root — and
the number of activations of records with that id equals the number of
such records that are enabled with a loaded, invocable module (so two
same-id records are both kept and both activated). -/
theorem C5_no_dedup (env : Env) (st st' : MState) (s : String)
    (h : loadAll env st = some st') :
    (st'.plugins.filter (fun p => jsStrictEqStr p.id s)).length =
      ((rootRecords env (appPluginsDir env)).filter
          (fun p => jsStrictEqStr p.id s)).length
      + ((rootRecords env (userPluginsDir env)).filter
          (fun p => jsStrictEqStr p.id s)).length ∧
    (st'.activationTrace.filter (fun v => jsStrictEqStr v s)).length =
      (st'.plugins.filter (fun p => invoked p && jsStrictEqStr p.id s)).length := by
  obtain ⟨h1, _, h3, _⟩ := loadAll_char env st st' h
  constructor
  · rw [h1]
    unfold allRecords
    rw [List.filter_append, List.length_append]
  · rw [h3, h1]
    rw [List.filter_map, List.length_map, List.filter_filter]
    simp only [Function.comp_def]
    exact congrArg List.length (List.filter_congr (fun a _ => Bool.and_comm _ _))

/-- Witness for C5: with manifest id `"x"` present in both search
roots, two records carry the id and both are activated. -/
theorem C5_no_dedup_witness :
    loadAll envC5 emptyMState = some stOutC5 ∧
    (stOutC5.plugins.filter (fun p => jsStrictEqStr p.id "x")).length = 2 ∧
    (stOutC5.activationTrace.filter (fun v => jsStrictEqStr v "x")).length = 2 ∧
    (stOutC5.activationTrace.filter (fun v => jsStrictEqStr v "x")).length =
      (stOutC5.plugins.filter (fun p => invoked p && jsStrictEqStr p.id "x")).length :=
  ⟨rfl, rfl, rfl, (C5_no_dedup envC5 emptyMState stOutC5 "x" rfl).2⟩

/-- Claim C9: `discoverPlugins` depends only on the filesystem view
(root paths, directory listings, manifest reads) — two environments
agreeing on those but with arbitrary module loaders produce identical
results, so no plugin code runs; a disabled candidate yields a
descriptor with `enabled = false`; and every candidate with a readable
manifest appears in the output no matter what the sibling entries of the
scan contain (an unreadable manifest only omits its own candidate). -/
theorem C9_discover_readonly (env env2 : Env) :
    (env.appPath = env2.appPath → env.userDataPath = env2.userDataPath →
      env.readdir = env2.readdir → env.readManifestE = env2.readManifestE →
      discoverPlugins env = discoverPlugins env2) ∧
    (∀ root, root ∈ getPluginDirs env → ∀ es, env.readdir root = some es →
      ∀ ent, ent ∈ es → ∀ d, descriptorOf env root ent = some d →
        d ∈ discoverPlugins env) ∧
    (∀ root ent m, ent.isDir = true →
      env.readManifestE (pjoin (pjoin root ent.name) "plugin.json") = .ok m →
      (∃ fs, m = .obj fs) → jsIsFalse (getField m "enabled") = true →
      ∃ d, descriptorOf env root ent = some d ∧ d.enabled = false) := by
  refine ⟨?_, ?_, ?_⟩
  · intro h1 h2 h3 h4
    have hdesc : ∀ root, descriptorOf env root = descriptorOf env2 root := by
      intro root
      funext ent
      unfold descriptorOf
      rw [h4]
    have hroot : ∀ root, discoverRoot env root = discoverRoot env2 root := by
      intro root
      unfold discoverRoot
      rw [h3, hdesc root]
    unfold discoverPlugins
    rw [show getPluginDirs env = getPluginDirs env2 from by
          unfold getPluginDirs; rw [h1, h2],
        funext hroot]
  · intro root hroot es hes ent hent d hd
    unfold discoverPlugins
    apply List.mem_flatten.mpr
    refine ⟨discoverRoot env root, List.mem_map_of_mem _ hroot, ?_⟩
    unfold discoverRoot
    rw [hes]
    exact List.mem_filterMap.mpr ⟨ent, hent, hd⟩
  · intro root ent m hdir hread hobj hdis
    obtain ⟨fs, hm⟩ := hobj
    subst hm
    simp only [descriptorOf]
    rw [if_neg (by simp [hdir] : ¬(!ent.isDir) = true)]
    simp only [hread]
    exact ⟨_, rfl, by simp [hdis]⟩

/-- Witness for C9: the concrete discovery environment, compared with
the same filesystem under an always-succeeding loader; the disabled
plugin `g` appears with `enabled = false`, the unreadable candidate
`bad` is omitted, and the sibling `u` is still discovered. -/
theorem C9_discover_readonly_witness :
    discoverPlugins envC9 = discoverPlugins envC9req ∧
    (discoverPlugins envC9).length = 2 ∧
    (∃ d, descriptorOf envC9 "A/plugins" ⟨"g", true⟩ = some d ∧ d.enabled = false) ∧
    descriptorOf envC9 "A/plugins" ⟨"bad", true⟩ = none ∧
    (∀ d, descriptorOf envC9 "A/plugins" ⟨"u", true⟩ = some d →
      d ∈ discoverPlugins envC9) :=
  ⟨(C9_discover_readonly envC9 envC9req).1 rfl rfl rfl rfl,
   rfl,
   (C9_discover_readonly envC9 envC9req).2.2 "A/plugins" ⟨"g", true⟩
     (JVal.obj [("enabled", JVal.bool false)]) rfl rfl ⟨_, rfl⟩ rfl,
   rfl,
   fun d hd => (C9_discover_readonly envC9 envC9req).2.1 "A/plugins"
     (List.Mem.head _)
     [⟨"g", true⟩, ⟨"bad", true⟩, ⟨"u", true⟩] rfl
     ⟨"u", true⟩ (List.Mem.tail _ (List.Mem.tail _ (List.Mem.head _))) d hd⟩

end NebulaPlugins
